import Mathlib

/-
Shallow embedding of the nftableslib rule/set compiler and table-state store
(src/nftables.go, src/nfsets.go, src/unnamed/part_000), together with proofs
about the embedded operations.

Conventions of the embedding:
* Go byte slices are `List Nat` (each entry a byte value); a nil slice of a
  nilable field is `Option (List Nat) := none`.
* Go machine integers are `Nat` with explicit `% 2 ^ 32` where overflow can
  occur.
* Fallible Go functions returning `(T, error)` become `Except String T`.
* `rand.Intn n` is embedded by threading an arbitrary natural `rnd` and
  taking `rnd % n`, which ranges over exactly the values `rand.Intn` can
  produce.
* The external kernel connection (`NetNS`) is embedded by explicit data: the
  list of operations enqueued so far, and the result a kernel list query
  would return is passed in as a parameter.
-/

namespace Nftableslib

/-- Table families of github.com/google/nftables (`TableFamily`). -/
inductive TableFamily where
  | Unspecified
  | INet
  | IPv4
  | ARP
  | NetDev
  | Bridge
  | IPv6
  deriving DecidableEq, Repr

/-- Set key/value datatype descriptor of github.com/google/nftables
(`SetDatatype`): a name, a byte width and the kernel magic tag
(`nftMagic`, accessed in Go through GetNFTMagic/SetNFTMagic). -/
structure SetDatatype where
  Name : String
  Bytes : Nat
  nftMagic : Nat
  deriving DecidableEq, Repr

/-- The zero value of `SetDatatype` (an unset Go struct field). -/
def zeroDatatype : SetDatatype := ⟨"", 0, 0⟩

/-- `nftables.TypeInvalid`. -/
def TypeInvalid : SetDatatype := ⟨"invalid", 0, 1⟩

/-- `nftables.TypeInteger`. -/
def TypeInteger : SetDatatype := ⟨"integer", 4, 4⟩

/-- `nftables.TypeIPAddr`. -/
def TypeIPAddr : SetDatatype := ⟨"ipv4_addr", 4, 7⟩

/-- `nftables.TypeIP6Addr`. -/
def TypeIP6Addr : SetDatatype := ⟨"ipv6_addr", 16, 8⟩

/-- `nftables.TypeEtherAddr`. -/
def TypeEtherAddr : SetDatatype := ⟨"ether_addr", 6, 9⟩

/-- `nftables.TypeInetProto`. -/
def TypeInetProto : SetDatatype := ⟨"inet_proto", 1, 12⟩

/-- `nftables.TypeInetService`. -/
def TypeInetService : SetDatatype := ⟨"inet_service", 2, 13⟩

/-- `nftables.TypeMark`. -/
def TypeMark : SetDatatype := ⟨"mark", 4, 19⟩

/-- `nftables.SetConcatTypeBits`: width of one concatenated-type tag field. -/
def SetConcatTypeBits : Nat := 6

/-- A netfilter verdict (`expr.Verdict`): a kind and an optional chain. -/
structure Verdict where
  kind : Int := 0
  chain : Option String := none
  deriving DecidableEq, Repr

/-- `RuleAction` as used by the set code: it carries the verdict pointer
(`ra.verdict`, nil when absent). -/
structure RuleAction where
  verdict : Option Verdict := none
  deriving DecidableEq, Repr

/-- `nftables.SetElement`: key bytes, optional value bytes, the interval-end
marker and an optional verdict payload. -/
structure SetElement where
  Key : List Nat := []
  Val : List Nat := []
  IntervalEnd : Bool := false
  VerdictData : Option Verdict := none
  deriving DecidableEq, Repr

/-- `ElementValue` of src/nfsets.go: one struct of optional payload fields;
Go nil pointers and nil slices are `none`. -/
structure ElementValue where
  Addr : String := ""
  Port : Option Nat := none
  AddrIP : Option String := none
  Action : Option RuleAction := none
  Integer : Option Nat := none
  IPAddr : Option (List Nat) := none
  EtherAddr : Option (List Nat) := none
  InetProto : Option Nat := none
  InetService : Option Nat := none
  Mark : Option Nat := none
  deriving DecidableEq, Repr

/-- `binaryutil.BigEndian.PutUint32`: four big-endian bytes. -/
def putUint32 (v : Nat) : List Nat :=
  [v / 2 ^ 24 % 256, v / 2 ^ 16 % 256, v / 2 ^ 8 % 256, v % 256]

/-- `binaryutil.BigEndian.PutUint16`: two big-endian bytes. -/
def putUint16 (v : Nat) : List Nat :=
  [v / 2 ^ 8 % 256, v % 256]

/-- The 4-byte alignment arithmetic used throughout src/nfsets.go:
`if l%4 != 0 { l += 4 - (l % 4) }`. -/
def pad4Len (n : Nat) : Nat :=
  if n % 4 ≠ 0 then n + (4 - n % 4) else n

/-- `ba := make([]byte, l); copy(ba, b)` with `l` the 4-byte-aligned length
of `b`: the bytes of `b` followed by zero padding up to the aligned length. -/
def alignTo4 (b : List Nat) : List Nat :=
  b ++ List.replicate (pad4Len b.length - b.length) 0

/-- The switch body of `processElementValue` (src/nfsets.go, lines 306-345):
per-datatype encoding of the matching `ElementValue` field, before the final
4-byte alignment; a missing required field is the "key value cannot be nil"
error and an unrecognized datatype is the unsupported-type error. -/
def rawElementBytes (keyT : SetDatatype) (keyV : ElementValue) :
    Except String (List Nat) :=
  if keyT = TypeInteger then
    match keyV.Integer with
    | none => .error "key value cannot be nil"
    | some v => .ok (putUint32 v)
  else if keyT = TypeMark then
    match keyV.Mark with
    | none => .error "key value cannot be nil"
    | some v => .ok (putUint32 v)
  else if keyT = TypeIPAddr ∨ keyT = TypeIP6Addr then
    match keyV.IPAddr with
    | none => .error "key value cannot be nil"
    | some bs => .ok bs
  else if keyT = TypeEtherAddr then
    match keyV.EtherAddr with
    | none => .error "key value cannot be nil"
    | some bs => .ok bs
  else if keyT = TypeInetProto then
    match keyV.InetProto with
    | none => .error "key value cannot be nil"
    | some v => .ok [v % 256]
  else if keyT = TypeInetService then
    match keyV.InetService with
    | none => .error "key value cannot be nil"
    | some v => .ok (putUint16 v)
  else
    .error "unsupported type of key element"

/-- `processElementValue` (src/nfsets.go): the per-datatype encoding aligned
to a 4-byte boundary. -/
def processElementValue (keyT : SetDatatype) (keyV : ElementValue) :
    Except String (List Nat) :=
  match rawElementBytes keyT keyV with
  | .error e => .error e
  | .ok b => .ok (alignTo4 b)

/-- The key-building loop of `MakeConcatElement` (src/nfsets.go, lines
286-293): encode each (datatype, value) pair and concatenate. -/
def concatKey (pairs : List (SetDatatype × ElementValue)) :
    Except String (List Nat) :=
  match pairs with
  | [] => .ok []
  | (k, v) :: rest =>
    match processElementValue k v with
    | .error e => .error e
    | .ok b =>
      match concatKey rest with
      | .error e => .error e
      | .ok bs => .ok (b ++ bs)

/-- `MakeConcatElement` (src/nfsets.go, lines 272-304): validation checks in
source order, then the concatenated key aligned to 4 bytes by allocating the
aligned length and copying the concatenation into its front. -/
def MakeConcatElement (keys : List SetDatatype) (vals : List ElementValue)
    (ra : Option RuleAction) : Except String SetElement :=
  match ra with
  | none => .error "verdict cannot be nil"
  | some ra =>
    if keys.length = 0 then .error "number of keys cannot be 0"
    else if keys.length ≠ vals.length then
      .error "number of vals does not match number of keys"
    else
      match concatKey (keys.zip vals) with
      | .error e => .error e
      | .ok key =>
        let kl := pad4Len key.length
        .ok { Key := key ++ List.replicate (kl - key.length) 0,
              VerdictData := ra.verdict }

/-- `GenSetKeyType` (src/nfsets.go, lines 358-402). The zero-input case is
the invalid sentinel; the one-input case copies name and magic and rounds the
width up to at least 4; the multi-input case folds over the types, building
the synthesized name exactly as the Go loop does (append `"_" + Name`, then
append `Name` again, then append `"_"` whenever `i < len(types)`, which holds
on every iteration), packing the magic tags by shifting, and summing the
individually rounded widths. -/
def GenSetKeyType (types : List SetDatatype) : SetDatatype :=
  match types with
  | [] => TypeInvalid
  | [t] =>
    { Name := t.Name,
      nftMagic := t.nftMagic,
      Bytes := if t.Bytes ≤ 4 then 4 else pad4Len t.Bytes }
  | _ =>
    let r := types.foldl
      (fun (acc : String × Nat × Nat) t =>
        let name := acc.1 ++ "_" ++ t.Name
        let c := (acc.2.1 <<< SetConcatTypeBits ||| t.nftMagic) % 2 ^ 32
        let b := acc.2.2 + (if t.Bytes ≤ 4 then 4 else pad4Len t.Bytes)
        let name := name ++ t.Name
        let name := name ++ "_"
        (name, c, b))
      ("concat", 0, 0)
    { Name := r.1, Bytes := r.2.2, nftMagic := r.2.1 }

/-- Reference to the owning table of a set (`nfs.table`). -/
structure TableRef where
  family : TableFamily
  name : String
  deriving DecidableEq, Repr

/-- `SetAttributes` of src/nfsets.go. -/
structure SetAttributes where
  Name : String := ""
  Constant : Bool := false
  IsMap : Bool := false
  HasTimeout : Bool := false
  Timeout : Nat := 0
  Interval : Bool := false
  KeyType : SetDatatype := zeroDatatype
  DataType : SetDatatype := zeroDatatype
  deriving DecidableEq, Repr

/-- `nftables.Set` descriptor, with the fields this code populates. -/
structure NFTSet where
  Table : Option TableRef := none
  ID : Nat := 0
  Name : String := ""
  Anonymous : Bool := false
  Constant : Bool := false
  Interval : Bool := false
  IsMap : Bool := false
  HasTimeout : Bool := false
  Timeout : Nat := 0
  KeyType : SetDatatype := zeroDatatype
  DataType : SetDatatype := zeroDatatype
  deriving DecidableEq, Repr

/-- Observable effect of one `CreateSet` call (src/nfsets.go, lines 74-117):
the set descriptor it constructs, the element slice it actually hands to
`conn.AddSet`, and the final value of the local variable `se` (the sentinel
slice with the caller elements appended). -/
structure CreateSetCall where
  set : NFTSet
  addSetElements : List SetElement
  se : List SetElement
  deriving DecidableEq, Repr

/-- `CreateSet` (src/nfsets.go, lines 74-117), translated line by line: build
`se` (prepending the family's zero-address interval-end sentinel when the set
is an interval set keyed by an address type), construct the set with a
random identifier below 0xffff, append the caller elements to `se`, and call
`conn.AddSet(s, elements)` — the call site passes `elements`, not `se`. -/
def CreateSet (tbl : TableRef) (attrs : SetAttributes)
    (elements : List SetElement) (rnd : Nat) : CreateSetCall :=
  let se : List SetElement :=
    if attrs.Interval then
      if attrs.KeyType = TypeIPAddr ∨ attrs.KeyType = TypeIP6Addr then
        if tbl.family = TableFamily.IPv4 then
          [{ Key := [0, 0, 0, 0], IntervalEnd := true }]
        else
          [{ Key := List.replicate 16 0, IntervalEnd := true }]
      else []
    else []
  let s : NFTSet :=
    { Table := some tbl
      ID := rnd % 0xffff
      Name := attrs.Name
      Anonymous := false
      Constant := attrs.Constant
      Interval := attrs.Interval
      IsMap := attrs.IsMap
      HasTimeout := attrs.HasTimeout
      KeyType := attrs.KeyType
      DataType := attrs.DataType
      Timeout := if attrs.HasTimeout ∧ attrs.Timeout ≠ 0 then attrs.Timeout else 0 }
  let se := se ++ elements
  { set := s, addSetElements := elements, se := se }

/-- An address as the L3 compiler consumes it: the projections Go would take
(`IP.To4()` and `IP.To16()`). -/
structure IPAddr where
  To4 : List Nat := []
  To16 : List Nat := []
  deriving DecidableEq, Repr

/-- `IPAddrSpec`: an explicit address list or a two-element range; Go nil
entries are `none`. -/
structure IPAddrSpec where
  List : Option (List IPAddr) := none
  Range : Option IPAddr × Option IPAddr := (none, none)
  deriving DecidableEq, Repr

/-- Primitive match expressions (`expr.Any`) as far as the claims observe
them: a packet-payload load at a header offset, a set lookup, an inline
range comparison, and the version/protocol match forms. -/
inductive ExprAny where
  | payload (dreg : Nat) (offset : Nat) (len : Nat)
  | lookupSet (sreg : Nat) (setName : String) (setID : Nat) (invert : Bool)
  | rangeCmp (lo : List Nat) (hi : List Nat) (invert : Bool)
  | versionMatch (v : Nat) (invert : Bool)
  | protoMatch (p : Nat) (invert : Bool)
  deriving DecidableEq, Repr

/-- `nfSet`: a set descriptor plus the elements that must be programmed
before the rule referencing the set is installed. -/
structure nfSet where
  set : NFTSet
  elements : List SetElement := []
  deriving DecidableEq, Repr

/-- Modelled from the spec: `getExprForListIPV2` is not under src/ (only its
caller `processAddrList` is). Per the spec's Predicate Compiler contract the
list match loads the address at the family-specific header offset (4 bytes
for IPv4, 16 for IPv6) into a register and looks it up in the set, inverted
when exclusion is requested; a family outside IPv4/IPv6 fails with an
unsupported-family condition. -/
def getExprForListIPV2 (l3proto : TableFamily) (set : NFTSet) (offset : Nat)
    (excl : Bool) : Except String (List ExprAny) :=
  match l3proto with
  | .IPv4 => .ok [.payload 1 offset 4, .lookupSet 1 set.Name set.ID excl]
  | .IPv6 => .ok [.payload 1 offset 16, .lookupSet 1 set.Name set.ID excl]
  | _ => .error "unsupported table family"

/-- Modelled from the spec: `getExprForRangeIP` is not under src/ (only its
caller `processAddrRange` is). Per the spec a range produces only inline
range-comparison primitives over the address loaded at the family-specific
header offset, no set; a family outside IPv4/IPv6 fails with an
unsupported-family condition. -/
def getExprForRangeIP (l3proto : TableFamily) (offset : Nat)
    (rng : IPAddr × IPAddr) (excl : Bool) : Except String (List ExprAny) :=
  match l3proto with
  | .IPv4 => .ok [.payload 1 offset 4, .rangeCmp rng.1.To4 rng.2.To4 excl]
  | .IPv6 => .ok [.payload 1 offset 16, .rangeCmp rng.1.To16 rng.2.To16 excl]
  | _ => .error "unsupported table family"

/-- Modelled from the spec: `getExprForIPVersion` is not under src/. The IP
version predicate compiles to a version match primitive, inverted under
exclusion. -/
def getExprForIPVersion (version : Nat) (excl : Bool) :
    Except String (List ExprAny) :=
  .ok [.versionMatch version excl]

/-- Modelled from the spec: `getExprForProtocol` is not under src/. The
protocol predicate compiles to a protocol match primitive, inverted under
exclusion. -/
def getExprForProtocol (_l3proto : TableFamily) (proto : Nat) (excl : Bool) :
    Except String (List ExprAny) :=
  .ok [.protoMatch proto excl]

/-- `processAddrList` (src/unnamed/part_000, lines 55-87): build the set
descriptor with a random identifier below 0xffff and a generated name, size
`se` to the list (`make([]nftables.SetElement, len(list))`), fill the keys
for the IPv4 or IPv6 family, error when `se` is empty, and otherwise build
the list-lookup expressions. The generated set name and the random draw are
threaded in as parameters. -/
def processAddrList (l3proto : TableFamily) (offset : Nat)
    (list : List IPAddr) (excl : Bool) (setName : String) (rnd : Nat) :
    Except String (List ExprAny × nfSet) :=
  let set : NFTSet :=
    { Anonymous := false, Constant := true, Name := setName, ID := rnd % 0xffff }
  let se : List SetElement := list.map (fun _ => {})
  let se := if l3proto = TableFamily.IPv4 then
      list.map (fun a => { Key := a.To4 }) else se
  let se := if l3proto = TableFamily.IPv6 then
      list.map (fun a => { Key := a.To16 }) else se
  if se.length = 0 then
    .error "unknown nftables.TableFamily"
  else
    match getExprForListIPV2 l3proto set offset excl with
    | .error e => .error e
    | .ok re => .ok (re, { set := set, elements := se })

/-- `processAddrRange` (src/unnamed/part_000, lines 89-96): delegate to the
range expression builder; no set is produced. -/
def processAddrRange (l3proto : TableFamily) (offset : Nat)
    (rng : IPAddr × IPAddr) (excl : Bool) : Except String (List ExprAny) :=
  getExprForRangeIP l3proto offset rng excl

/-- The `addrOffset` switch of `processIPAddr` (src/unnamed/part_000, lines
124-139): 12/16 for IPv4 source/destination, 8/24 for IPv6
source/destination; the Go switch leaves the variable at its zero value for
any other family. -/
def addrOffsetOf (l3proto : TableFamily) (src : Bool) : Nat :=
  match l3proto with
  | .IPv4 => if src then 12 else 16
  | .IPv6 => if src then 8 else 24
  | _ => 0

/-- The `keyType` switch of `processIPAddr` (src/unnamed/part_000, lines
124-139): the family's address datatype, or the zero value for any other
family. -/
def keyTypeOf (l3proto : TableFamily) : SetDatatype :=
  match l3proto with
  | .IPv4 => TypeIPAddr
  | .IPv6 => TypeIP6Addr
  | _ => zeroDatatype

/-- `processIPAddr` (src/unnamed/part_000, lines 116-164): compute the
address offset and key datatype from the family and the source/destination
role, compile a present list (stamping the key datatype onto the produced
set) and a fully populated range, and concatenate the results. -/
def processIPAddr (l3proto : TableFamily) (addrs : IPAddrSpec) (src : Bool)
    (exclude : Bool) (setName : String) (rnd : Nat) :
    Except String (List ExprAny × List nfSet) :=
  let addrOffset : Nat := addrOffsetOf l3proto src
  let keyType : SetDatatype := keyTypeOf l3proto
  let fromList : Except String (List ExprAny × List nfSet) :=
    match addrs.List with
    | none => .ok ([], [])
    | some l =>
      match processAddrList l3proto addrOffset l exclude setName rnd with
      | .error e => .error e
      | .ok (e, set) =>
        let set := { set with set := { set.set with KeyType := keyType } }
        .ok (e, [set])
  match fromList with
  | .error e => .error e
  | .ok (re, sets) =>
    match addrs.Range with
    | (some lo, some hi) =>
      match processAddrRange l3proto addrOffset (lo, hi) exclude with
      | .error e => .error e
      | .ok e => .ok (re ++ e, sets)
    | _ => .ok (re, sets)

/-- `L3Rule`: the L3 portion of a rule specification. -/
structure L3Rule where
  Version : Option Nat := none
  Protocol : Option Nat := none
  Src : Option IPAddrSpec := none
  Dst : Option IPAddrSpec := none
  deriving DecidableEq, Repr

/-- `createL3` (src/unnamed/part_000, lines 11-53): compile the populated L3
fields in source order (version, protocol, source address, destination
address), concatenating expressions and collecting produced sets. The set
names and random draws for the two possible address lists are threaded in. -/
def createL3 (l3proto : TableFamily) (l3 : L3Rule) (exclude : Bool)
    (srcSetName dstSetName : String) (srcRnd dstRnd : Nat) :
    Except String (List ExprAny × List nfSet) :=
  let fromVersion : Except String (List ExprAny) :=
    match l3.Version with
    | none => .ok []
    | some v => getExprForIPVersion v exclude
  match fromVersion with
  | .error e => .error e
  | .ok re1 =>
    let fromProto : Except String (List ExprAny) :=
      match l3.Protocol with
      | none => .ok []
      | some p => getExprForProtocol l3proto p exclude
    match fromProto with
    | .error e => .error e
    | .ok re2 =>
      let fromSrc : Except String (List ExprAny × List nfSet) :=
        match l3.Src with
        | none => .ok ([], [])
        | some a => processIPAddr l3proto a true exclude srcSetName srcRnd
      match fromSrc with
      | .error e => .error e
      | .ok (re3, sets3) =>
        let fromDst : Except String (List ExprAny × List nfSet) :=
          match l3.Dst with
          | none => .ok ([], [])
          | some a => processIPAddr l3proto a false exclude dstSetName dstRnd
        match fromDst with
        | .error e => .error e
        | .ok (re4, sets4) =>
          .ok (re1 ++ re2 ++ re3 ++ re4, sets3 ++ sets4)

/-- One record of the table registry (`nfTable`): the embedded
`nftables.Table` identity plus whether the Chain Store and Set Store
interfaces are instantiated (Go nil-ness of the embedded interfaces). -/
structure NFTable where
  family : TableFamily
  name : String
  chains : Bool
  sets : Bool
  deriving DecidableEq, Repr

/-- The inner map of the registry: table name to record. Go maps are
embedded as association lists whose insert erases the key first. -/
abbrev TableMap := List (String × NFTable)

/-- The two-level registry (`nft.tables`): family to inner map. -/
abbrev Registry := List (TableFamily × TableMap)

/-- Map lookup on the inner map. -/
def lookupName (m : TableMap) (n : String) : Option NFTable :=
  match m with
  | [] => none
  | (k, v) :: rest => if k = n then some v else lookupName rest n

/-- Map assignment on the inner map: the new binding replaces any binding of
the same key. -/
def insertName (m : TableMap) (n : String) (t : NFTable) : TableMap :=
  (n, t) :: m.filter (fun p => p.1 ≠ n)

/-- Map lookup on the outer map. -/
def lookupFam (r : Registry) (f : TableFamily) : Option TableMap :=
  match r with
  | [] => none
  | (k, v) :: rest => if k = f then some v else lookupFam rest f

/-- Map assignment on the outer map. -/
def setFam (r : Registry) (f : TableFamily) (m : TableMap) : Registry :=
  (f, m) :: r.filter (fun p => p.1 ≠ f)

/-- `nft.tables[familyType][name]` as a single lookup. -/
def lookupTable (r : Registry) (f : TableFamily) (n : String) :
    Option NFTable :=
  match lookupFam r f with
  | none => none
  | some m => lookupName m n

/-- Number of registry entries stored under family `f` and name `n`. -/
def countEntries (r : Registry) (f : TableFamily) (n : String) : Nat :=
  ((r.filter (fun p => p.1 = f)).map
    (fun p => (p.2.filter (fun q => q.1 = n)).length)).sum

/-- Kernel operations the connection can enqueue. -/
inductive KernelOp where
  | addTable (family : TableFamily) (name : String)
  | delTable (family : TableFamily) (name : String)
  deriving DecidableEq, Repr

/-- State of the table store: the registry plus the operations enqueued on
the connection so far. -/
structure TablesState where
  tables : Registry := []
  queue : List KernelOp := []
  deriving DecidableEq, Repr

/-- The unexported `create` of src/nftables.go (lines 100-127): return the
existing record when it exists with both sub-interfaces instantiated;
otherwise allocate the family bucket if needed and (re)register a fresh
record with both sub-interfaces constructed. -/
def createTbl (r : Registry) (name : String) (family : TableFamily) :
    Registry × NFTable :=
  let hit : Option NFTable :=
    match lookupFam r family with
    | some inner =>
      match lookupName inner name with
      | some t => if t.chains && t.sets then some t else none
      | none => none
    | none => none
  match hit with
  | some t => (r, t)
  | none =>
    let nt : NFTable := ⟨family, name, true, true⟩
    let inner := (lookupFam r family).getD []
    (setFam r family (insertName inner name nt), nt)

/-- `Create` (src/nftables.go, lines 92-98): run `create` under the lock and
enqueue `conn.AddTable` for the returned record's table; no flush. -/
def Create (s : TablesState) (name : String) (family : TableFamily) :
    TablesState :=
  let (r, t) := createTbl s.tables name family
  { tables := r, queue := s.queue ++ [.addTable t.family t.name] }

/-- A kernel-reported table, as `conn.ListTables` returns them. -/
structure KTable where
  family : TableFamily
  name : String
  deriving DecidableEq, Repr

/-- The unexported `get` (src/nftables.go, lines 203-217): filter the
kernel-reported tables to the requested family and keep the names; a list
failure propagates. The kernel's answer is the `listResult` parameter. -/
def getFam (listResult : Except String (List KTable))
    (family : TableFamily) : Except String (List String) :=
  match listResult with
  | .error e => .error e
  | .ok ts => .ok (ts.filterMap
      (fun t => if t.family = family then some t.name else none))

/-- `Exist` (src/nftables.go, lines 176-193): a local-store hit returns
true; on a miss, list kernel tables of the family and scan for the name,
returning false when the list call fails. -/
def Exist (s : TablesState) (listResult : Except String (List KTable))
    (name : String) (family : TableFamily) : Bool :=
  match lookupTable s.tables family name with
  | some _ => true
  | none =>
    match getFam listResult family with
    | .error _ => false
    | .ok names => names.contains name

/-- The loop of `Sync` (src/nftables.go, lines 230-244) over the
kernel-reported tables: for each table of the requested family absent from
the registry, create the record, then run the chain-store and set-store
sub-syncs (external to the table registry, passed in as `subSync`),
propagating their failure. -/
def syncLoop (subSync : TableFamily → String → Except String Unit)
    (family : TableFamily) (kts : List KTable) (r : Registry) :
    Except String Registry :=
  match kts with
  | [] => .ok r
  | t :: rest =>
    if t.family = family then
      match lookupTable r family t.name with
      | some _ => syncLoop subSync family rest r
      | none =>
        let r1 := (createTbl r t.name t.family).1
        match subSync t.family t.name with
        | .error e => .error e
        | .ok _ => syncLoop subSync family rest r1
    else
      syncLoop subSync family rest r

/-- `Sync` (src/nftables.go, lines 221-247): list kernel tables (failure
propagates), then run the additive absorption loop. -/
def Sync (listResult : Except String (List KTable))
    (subSync : TableFamily → String → Except String Unit)
    (s : TablesState) (family : TableFamily) : Except String TablesState :=
  match listResult with
  | .error e => .error e
  | .ok kts =>
    match syncLoop subSync family kts s.tables with
    | .error e => .error e
    | .ok r => .ok { s with tables := r }

/-- Well-formedness of a registry as the Go map representation guarantees
it: outer keys are distinct, inner keys are distinct, and every stored
record carries the family and name it is keyed under. -/
def RegistryWF (r : Registry) : Prop :=
  (r.map Prod.fst).Nodup ∧
  ∀ p ∈ r, (p.2.map Prod.fst).Nodup ∧
    ∀ q ∈ p.2, q.2.family = p.1 ∧ q.2.name = q.1

instance (r : Registry) : Decidable (RegistryWF r) := by
  unfold RegistryWF; infer_instance

/-- Expected encoded byte length of one key component, recomputed from the
spec's description of the per-datatype encodings (integer and mark are
32-bit, addresses and link-layer addresses contribute the supplied byte
sequence, protocol number is one byte, service/port is 16-bit); `none` when
the spec predicts a validation failure. This definition follows the spec's
words and is compared against the source-derived encoder. -/
def specComponentLen (keyT : SetDatatype) (keyV : ElementValue) :
    Option Nat :=
  if keyT = TypeInteger then keyV.Integer.map fun _ => 4
  else if keyT = TypeMark then keyV.Mark.map fun _ => 4
  else if keyT = TypeIPAddr ∨ keyT = TypeIP6Addr then
    keyV.IPAddr.map List.length
  else if keyT = TypeEtherAddr then keyV.EtherAddr.map List.length
  else if keyT = TypeInetProto then keyV.InetProto.map fun _ => 1
  else if keyT = TypeInetService then keyV.InetService.map fun _ => 2
  else none

/-- Expected byte length of the whole concatenated key per the spec: the sum
over the components of each component's encoded length rounded up to the
next multiple of 4. -/
def specExpectedKeyLen : List (SetDatatype × ElementValue) → Option Nat
  | [] => some 0
  | (k, v) :: rest =>
    match specComponentLen k v, specExpectedKeyLen rest with
    | some a, some b => some (pad4Len a + b)
    | _, _ => none

theorem pad4Len_mod (n : Nat) : pad4Len n % 4 = 0 := by
  unfold pad4Len
  split <;> omega

theorem le_pad4Len (n : Nat) : n ≤ pad4Len n := by
  unfold pad4Len
  split <;> omega

theorem pad4Len_of_mod {n : Nat} (h : n % 4 = 0) : pad4Len n = n := by
  unfold pad4Len
  simp [h]

theorem alignTo4_length (b : List Nat) :
    (alignTo4 b).length = pad4Len b.length := by
  have := le_pad4Len b.length
  simp [alignTo4]
  omega

theorem rawElementBytes_ok_length {k : SetDatatype} {v : ElementValue}
    {b : List Nat} (h : rawElementBytes k v = .ok b) :
    specComponentLen k v = some b.length := by
  unfold rawElementBytes at h
  unfold specComponentLen
  split_ifs at h <;> split_ifs
  all_goals
    first
      | (cases hv : v.Integer <;> rw [hv] at h <;> cases h <;>
          simp [hv, putUint32])
      | (cases hv : v.Mark <;> rw [hv] at h <;> cases h <;>
          simp [hv, putUint32])
      | (cases hv : v.IPAddr <;> rw [hv] at h <;> cases h <;> simp [hv])
      | (cases hv : v.EtherAddr <;> rw [hv] at h <;> cases h <;> simp [hv])
      | (cases hv : v.InetProto <;> rw [hv] at h <;> cases h <;> simp [hv])
      | (cases hv : v.InetService <;> rw [hv] at h <;> cases h <;>
          simp [hv, putUint16])
      | cases h

theorem processElementValue_ok_length {k : SetDatatype} {v : ElementValue}
    {b : List Nat} (h : processElementValue k v = .ok b) :
    ∃ a, specComponentLen k v = some a ∧ b.length = pad4Len a := by
  unfold processElementValue at h
  cases hr : rawElementBytes k v with
  | error e => rw [hr] at h; cases h
  | ok raw =>
    rw [hr] at h
    cases h
    exact ⟨raw.length, rawElementBytes_ok_length hr, alignTo4_length raw⟩

theorem concatKey_ok_length {pairs : List (SetDatatype × ElementValue)}
    {key : List Nat} (h : concatKey pairs = .ok key) :
    specExpectedKeyLen pairs = some key.length ∧ key.length % 4 = 0 := by
  induction pairs generalizing key with
  | nil =>
    unfold concatKey at h
    cases h
    simp [specExpectedKeyLen]
  | cons p rest ih =>
    obtain ⟨k, v⟩ := p
    unfold concatKey at h
    cases hp : processElementValue k v with
    | error e => rw [hp] at h; cases h
    | ok b =>
      rw [hp] at h
      cases hr : concatKey rest with
      | error e => rw [hr] at h; cases h
      | ok bs =>
        rw [hr] at h
        cases h
        obtain ⟨a, ha, hb⟩ := processElementValue_ok_length hp
        obtain ⟨h1, h2⟩ := ih hr
        have hbm : b.length % 4 = 0 := by rw [hb]; exact pad4Len_mod a
        constructor
        · simp [specExpectedKeyLen, ha, h1, hb]
        · simp only [List.length_append]
          omega

/-- C3: whenever `MakeConcatElement` succeeds, the produced element's key
length equals the spec's independent recomputation — the sum over the
components of each component's encoded length rounded up to the next
multiple of 4 — and that length is itself a multiple of 4. -/
theorem makeConcatElement_key_length (keys : List SetDatatype)
    (vals : List ElementValue) (ra : Option RuleAction) (e : SetElement)
    (h : MakeConcatElement keys vals ra = .ok e) :
    specExpectedKeyLen (keys.zip vals) = some e.Key.length ∧
    e.Key.length % 4 = 0 := by
  unfold MakeConcatElement at h
  cases ra with
  | none => cases h
  | some ra =>
    split_ifs at h
    cases hc : concatKey (keys.zip vals) with
    | error msg => rw [hc] at h; cases h
    | ok key =>
      rw [hc] at h
      cases h
      obtain ⟨h1, h2⟩ := concatKey_ok_length hc
      have : pad4Len key.length = key.length := pad4Len_of_mod h2
      simp [this, h1, h2]

theorem makeConcatElement_key_length_witness :
    specExpectedKeyLen
        ([TypeIPAddr, TypeInetService].zip
          [{ IPAddr := some [192, 0, 2, 1] }, { InetService := some 443 }])
      = some ({ Key := [192, 0, 2, 1, 1, 187, 0, 0],
                VerdictData := some {} } : SetElement).Key.length ∧
    ({ Key := [192, 0, 2, 1, 1, 187, 0, 0],
       VerdictData := some {} } : SetElement).Key.length % 4 = 0 :=
  makeConcatElement_key_length [TypeIPAddr, TypeInetService]
    [{ IPAddr := some [192, 0, 2, 1] }, { InetService := some 443 }]
    (some { verdict := some {} }) _ rfl

/-- C4: `MakeConcatElement` fails with a validation error — producing no
element — whenever the action is nil, the key list is empty, or the key and
value list lengths differ. -/
theorem makeConcatElement_validation (keys : List SetDatatype)
    (vals : List ElementValue) (ra : Option RuleAction)
    (h : ra = none ∨ keys = [] ∨ keys.length ≠ vals.length) :
    ∃ msg, MakeConcatElement keys vals ra = .error msg := by
  rcases h with h | h | h
  · subst h
    exact ⟨_, rfl⟩
  · subst h
    cases ra with
    | none => exact ⟨_, rfl⟩
    | some ra => exact ⟨_, rfl⟩
  · cases ra with
    | none => exact ⟨_, rfl⟩
    | some ra =>
      by_cases hk : keys.length = 0
      · exact ⟨"number of keys cannot be 0", by simp [MakeConcatElement, hk]⟩
      · exact ⟨"number of vals does not match number of keys",
          by simp [MakeConcatElement, hk, h]⟩

theorem makeConcatElement_validation_witness :
    ∃ msg, MakeConcatElement [] [] none = .error msg :=
  makeConcatElement_validation [] [] none (Or.inl rfl)

/-- C1: the claim fails on the code. At an IPv4 table, for an interval set
keyed by the IPv4 address type, `CreateSet` builds the sentinel-prepended
slice `se` but hands the unmodified caller elements to `conn.AddSet`, so the
sequence passed to the add-set operation does not begin with the zero-address
interval-end sentinel. -/
theorem createSet_addSet_drops_sentinel :
    (CreateSet ⟨.IPv4, "filter"⟩
        { Name := "src-set", Interval := true, KeyType := TypeIPAddr }
        [{ Key := [192, 0, 2, 1] }] 5).addSetElements
      = [{ Key := [192, 0, 2, 1] }] ∧
    (CreateSet ⟨.IPv4, "filter"⟩
        { Name := "src-set", Interval := true, KeyType := TypeIPAddr }
        [{ Key := [192, 0, 2, 1] }] 5).se
      = { Key := [0, 0, 0, 0], IntervalEnd := true } ::
          [{ Key := [192, 0, 2, 1] }] ∧
    (CreateSet ⟨.IPv4, "filter"⟩
        { Name := "src-set", Interval := true, KeyType := TypeIPAddr }
        [{ Key := [192, 0, 2, 1] }] 5).addSetElements
      ≠ { Key := [0, 0, 0, 0], IntervalEnd := true } ::
          [{ Key := [192, 0, 2, 1] }] := by
  refine ⟨rfl, rfl, ?_⟩
  decide

/-- C2: the claim fails on the code. For two component types the synthesized
name appends each component name twice and appends an underscore on every
iteration (the guard `i < len(types)` always holds), so the name is not
`"concat_" + name1 + "_" + name2`. -/
theorem genSetKeyType_name_at_failing_input :
    (GenSetKeyType [TypeIPAddr, TypeInetService]).Name
      = "concat_ipv4_addripv4_addr__inet_serviceinet_service_" ∧
    (GenSetKeyType [TypeIPAddr, TypeInetService]).Name
      ≠ "concat_ipv4_addr_inet_service" := by
  refine ⟨rfl, ?_⟩
  decide

theorem processAddrList_ok {l3proto : TableFamily} {offset : Nat}
    {list : List IPAddr} {excl : Bool} {setName : String} {rnd : Nat}
    {re : List ExprAny} {s : nfSet}
    (h : processAddrList l3proto offset list excl setName rnd =
      .ok (re, s)) :
    s.set = { Anonymous := false, Constant := true, Name := setName,
              ID := rnd % 0xffff } ∧
    getExprForListIPV2 l3proto s.set offset excl = .ok re := by
  simp only [processAddrList] at h
  repeat' split at h
  all_goals
    first
      | exact Except.noConfusion h
      | (rename_i heq; cases h; exact ⟨rfl, heq⟩)

/-- C9: every numeric set identifier assigned at set creation — by
`CreateSet` for named sets and by `processAddrList` for the list compiler's
lookup sets — is at most 65534: both draw `rand.Intn(0xffff)`. -/
theorem set_identifier_range :
    (∀ tbl attrs elements rnd,
        (CreateSet tbl attrs elements rnd).set.ID ≤ 65534) ∧
    (∀ l3proto offset list excl setName rnd re s,
        processAddrList l3proto offset list excl setName rnd =
          Except.ok (re, s) → s.set.ID ≤ 65534) := by
  constructor
  · intro tbl attrs elements rnd
    have hid : (CreateSet tbl attrs elements rnd).set.ID = rnd % 0xffff := rfl
    rw [hid]
    omega
  · intro l3proto offset list excl setName rnd re s h
    have hset := (processAddrList_ok h).1
    have hid : s.set.ID = rnd % 0xffff := by rw [hset]
    rw [hid]
    omega

theorem set_identifier_range_witness :
    ({ set := { Anonymous := false, Constant := true, Name := "s0",
                ID := 4465 },
       elements := [{ Key := [192, 0, 2, 1] }] } : nfSet).set.ID ≤ 65534 :=
  set_identifier_range.2 .IPv4 12 [{ To4 := [192, 0, 2, 1] }] false "s0"
    70000 [.payload 1 12 4, .lookupSet 1 "s0" 4465 false] _ rfl

/-- C10: with (name, family) absent from the local registry, a failing
kernel list-tables query makes `Exist` answer false rather than surface the
error. -/
theorem exist_false_on_list_error (s : TablesState) (e : String)
    (name : String) (family : TableFamily)
    (h : lookupTable s.tables family name = none) :
    Exist s (.error e) name family = false := by
  unfold Exist
  rw [h]
  rfl

theorem exist_false_on_list_error_witness :
    Exist {} (.error "netlink receive") "t1" .IPv4 = false :=
  exist_false_on_list_error {} "netlink receive" "t1" .IPv4 rfl

/-- The header offset the claim predicts for an address match: 12/16 for
IPv4 source/destination, 8/24 for IPv6. -/
def expectedAddrOffset (family : TableFamily) (src : Bool) : Nat :=
  match family with
  | .IPv4 => if src then 12 else 16
  | _ => if src then 8 else 24

/-- Whether every payload-load expression in the list reads at offset `o`. -/
def allPayloadOffsets (re : List ExprAny) (o : Nat) : Bool :=
  re.all fun e =>
    match e with
    | .payload _ o2 _ => o2 == o
    | _ => true

theorem allPayloadOffsets_append {a b : List ExprAny} {o : Nat} :
    allPayloadOffsets (a ++ b) o =
      (allPayloadOffsets a o && allPayloadOffsets b o) := by
  simp [allPayloadOffsets, List.all_append]

theorem getExprForListIPV2_offsets {family : TableFamily} {set : NFTSet}
    {offset : Nat} {excl : Bool} {re : List ExprAny}
    (h : getExprForListIPV2 family set offset excl = .ok re) :
    allPayloadOffsets re offset = true := by
  cases family <;> simp only [getExprForListIPV2] at h <;> try cases h
  all_goals simp [allPayloadOffsets]

theorem getExprForRangeIP_offsets {family : TableFamily} {offset : Nat}
    {rng : IPAddr × IPAddr} {excl : Bool} {re : List ExprAny}
    (h : getExprForRangeIP family offset rng excl = .ok re) :
    allPayloadOffsets re offset = true := by
  cases family <;> simp only [getExprForRangeIP] at h <;> try cases h
  all_goals simp [allPayloadOffsets]

theorem processIPAddr_offsets_aux {family : TableFamily} {addrs : IPAddrSpec}
    {src exclude : Bool} {setName : String} {rnd : Nat} {re : List ExprAny}
    {sets : List nfSet}
    (h : processIPAddr family addrs src exclude setName rnd =
      .ok (re, sets)) :
    allPayloadOffsets re (addrOffsetOf family src) = true := by
  simp only [processIPAddr] at h
  split at h
  · cases h
  · rename_i re1 sets1 heq
    have h1 : allPayloadOffsets re1 (addrOffsetOf family src) = true := by
      split at heq
      · cases heq
        simp [allPayloadOffsets]
      · split at heq
        · cases heq
        · rename_i hpl
          cases heq
          exact getExprForListIPV2_offsets (processAddrList_ok hpl).2
    split at h
    · split at h
      · cases h
      · rename_i hre
        cases h
        rw [allPayloadOffsets_append, h1,
          getExprForRangeIP_offsets hre]
        rfl
    · cases h
      exact h1

/-- C6: for a compiled L3 address predicate over an IPv4 or IPv6 family,
every payload load produced by `processIPAddr` reads the packet header at
byte offset 12 (IPv4 source), 16 (IPv4 destination), 8 (IPv6 source) or 24
(IPv6 destination), for every address specification, exclusion flag, set
name and random draw. -/
theorem processIPAddr_payload_offsets (family : TableFamily)
    (addrs : IPAddrSpec) (src exclude : Bool) (setName : String) (rnd : Nat)
    (re : List ExprAny) (sets : List nfSet)
    (hf : family = .IPv4 ∨ family = .IPv6)
    (h : processIPAddr family addrs src exclude setName rnd =
      .ok (re, sets)) :
    allPayloadOffsets re (expectedAddrOffset family src) = true := by
  have haux := processIPAddr_offsets_aux h
  have hofs : addrOffsetOf family src = expectedAddrOffset family src := by
    rcases hf with hf | hf <;> subst hf <;> rfl
  rwa [hofs] at haux

theorem processIPAddr_payload_offsets_witness :
    allPayloadOffsets
      [ExprAny.payload 1 12 4, ExprAny.lookupSet 1 "s0" 7 false]
      (expectedAddrOffset .IPv4 true) = true :=
  processIPAddr_payload_offsets .IPv4
    { List := some [{ To4 := [192, 0, 2, 1] }] } true false "s0" 7
    [ExprAny.payload 1 12 4, ExprAny.lookupSet 1 "s0" 7 false]
    [{ set := { Anonymous := false, Constant := true, Name := "s0", ID := 7,
                KeyType := TypeIPAddr },
       elements := [{ Key := [192, 0, 2, 1] }] }]
    (Or.inl rfl) rfl

theorem getExprForListIPV2_unsupported (family : TableFamily) (set : NFTSet)
    (offset : Nat) (excl : Bool) (h4 : family ≠ .IPv4)
    (h6 : family ≠ .IPv6) :
    getExprForListIPV2 family set offset excl =
      .error "unsupported table family" := by
  cases family <;> first
    | rfl
    | exact absurd rfl h4
    | exact absurd rfl h6

theorem getExprForRangeIP_unsupported (family : TableFamily) (offset : Nat)
    (rng : IPAddr × IPAddr) (excl : Bool) (h4 : family ≠ .IPv4)
    (h6 : family ≠ .IPv6) :
    getExprForRangeIP family offset rng excl =
      .error "unsupported table family" := by
  cases family <;> first
    | rfl
    | exact absurd rfl h4
    | exact absurd rfl h6

theorem processAddrList_unsupported (family : TableFamily) (offset : Nat)
    (list : List IPAddr) (excl : Bool) (setName : String) (rnd : Nat)
    (h4 : family ≠ .IPv4) (h6 : family ≠ .IPv6) :
    ∃ msg, processAddrList family offset list excl setName rnd =
      .error msg := by
  simp only [processAddrList, h4, h6, if_false]
  cases list with
  | nil => exact ⟨"unknown nftables.TableFamily", by simp⟩
  | cons a as =>
    rw [getExprForListIPV2_unsupported family _ offset excl h4 h6]
    exact ⟨"unsupported table family", by simp⟩

/-- C5: for a table family outside IPv4/IPv6, compiling any populated
address specification — a present list or a fully populated range — through
`processIPAddr` fails with an error. -/
theorem processIPAddr_unsupported_family (family : TableFamily)
    (addrs : IPAddrSpec) (src exclude : Bool) (setName : String) (rnd : Nat)
    (h4 : family ≠ .IPv4) (h6 : family ≠ .IPv6)
    (hp : addrs.List ≠ none ∨
      (addrs.Range.1 ≠ none ∧ addrs.Range.2 ≠ none)) :
    ∃ msg, processIPAddr family addrs src exclude setName rnd =
      .error msg := by
  simp only [processIPAddr]
  cases hL : addrs.List with
  | some l =>
    obtain ⟨msg, hm⟩ := processAddrList_unsupported family
      (addrOffsetOf family src) l exclude setName rnd h4 h6
    exact ⟨msg, by simp [hm]⟩
  | none =>
    rcases hp with hp | ⟨hp1, hp2⟩
    · exact absurd hL hp
    · cases hRng : addrs.Range with
      | mk o1 o2 =>
        rw [hRng] at hp1 hp2
        cases o1 with
        | none => exact absurd rfl hp1
        | some lo =>
          cases o2 with
          | none => exact absurd rfl hp2
          | some hi =>
            exact ⟨"unsupported table family", by
              simp [processAddrRange,
                getExprForRangeIP_unsupported family
                  (addrOffsetOf family src) (lo, hi) exclude h4 h6]⟩

theorem processIPAddr_unsupported_family_witness :
    ∃ msg, processIPAddr .ARP
      { List := some [{ To4 := [10, 0, 0, 1] }] } true false "s1" 0 =
        .error msg :=
  processIPAddr_unsupported_family .ARP
    { List := some [{ To4 := [10, 0, 0, 1] }] } true false "s1" 0
    (fun hcon => TableFamily.noConfusion hcon)
    (fun hcon => TableFamily.noConfusion hcon)
    (Or.inl (fun hcon => Option.noConfusion hcon))

theorem lookupName_filter_stable {n' : String}
    (pred : String × NFTable → Bool)
    (hpred : ∀ v, pred (n', v) = true) (m : TableMap) :
    lookupName (m.filter pred) n' = lookupName m n' := by
  induction m with
  | nil => rfl
  | cons q rest ih =>
    obtain ⟨k, v⟩ := q
    by_cases hk' : k = n'
    · subst hk'
      rw [List.filter_cons, if_pos (by simp [hpred v])]
      simp [lookupName]
    · cases hpq : pred (k, v) with
      | true =>
        rw [List.filter_cons, if_pos (by simp [hpq])]
        simp only [lookupName, if_neg hk']
        exact ih
      | false =>
        rw [List.filter_cons, if_neg (by simp [hpq])]
        rw [ih]
        simp [lookupName, hk']

theorem lookupName_insert_self (m : TableMap) (n : String) (t : NFTable) :
    lookupName (insertName m n t) n = some t := by
  simp [insertName, lookupName]

theorem lookupName_insert_ne (m : TableMap) (n : String) (t : NFTable)
    {n' : String} (h : n' ≠ n) :
    lookupName (insertName m n t) n' = lookupName m n' := by
  have hne : n ≠ n' := fun hcon => h hcon.symm
  unfold insertName
  simp only [lookupName, if_neg hne]
  exact lookupName_filter_stable _ (fun v => by simp [h]) m

theorem lookupFam_filter_stable {f' : TableFamily}
    (pred : TableFamily × TableMap → Bool)
    (hpred : ∀ v, pred (f', v) = true) (r : Registry) :
    lookupFam (r.filter pred) f' = lookupFam r f' := by
  induction r with
  | nil => rfl
  | cons q rest ih =>
    obtain ⟨k, v⟩ := q
    by_cases hk' : k = f'
    · subst hk'
      rw [List.filter_cons, if_pos (by simp [hpred v])]
      simp [lookupFam]
    · cases hpq : pred (k, v) with
      | true =>
        rw [List.filter_cons, if_pos (by simp [hpq])]
        simp only [lookupFam, if_neg hk']
        exact ih
      | false =>
        rw [List.filter_cons, if_neg (by simp [hpq])]
        rw [ih]
        simp [lookupFam, hk']

theorem lookupFam_set_self (r : Registry) (f : TableFamily) (m : TableMap) :
    lookupFam (setFam r f m) f = some m := by
  simp [setFam, lookupFam]

theorem lookupFam_set_ne (r : Registry) (f : TableFamily) (m : TableMap)
    {f' : TableFamily} (h : f' ≠ f) :
    lookupFam (setFam r f m) f' = lookupFam r f' := by
  have hne : f ≠ f' := fun hcon => h hcon.symm
  unfold setFam
  simp only [lookupFam, if_neg hne]
  exact lookupFam_filter_stable _ (fun v => by simp [h]) r

theorem lookupTable_setFam_insertName (r : Registry) (f : TableFamily)
    (n : String) (t : NFTable) (f' : TableFamily) (n' : String) :
    lookupTable
        (setFam r f (insertName ((lookupFam r f).getD []) n t)) f' n' =
      if f' = f ∧ n' = n then some t else lookupTable r f' n' := by
  by_cases hf : f' = f
  · subst hf
    have hred :
        lookupTable
            (setFam r f' (insertName ((lookupFam r f').getD []) n t)) f' n'
          = lookupName (insertName ((lookupFam r f').getD []) n t) n' := by
      unfold lookupTable
      rw [lookupFam_set_self]
    rw [hred]
    by_cases hn : n' = n
    · subst hn
      rw [lookupName_insert_self, if_pos ⟨rfl, rfl⟩]
    · rw [lookupName_insert_ne _ _ _ hn, if_neg (fun hcon => hn hcon.2)]
      unfold lookupTable
      cases hfo : lookupFam r f' with
      | none => rfl
      | some inner => rfl
  · unfold lookupTable
    rw [lookupFam_set_ne _ _ _ hf]
    rw [if_neg (fun hcon => hf hcon.1)]

theorem createTbl_no_hit {r : Registry} {n : String} {f : TableFamily}
    (h : ¬ ∃ t0, lookupTable r f n = some t0 ∧
      t0.chains = true ∧ t0.sets = true) :
    createTbl r n f =
      (setFam r f
        (insertName ((lookupFam r f).getD []) n ⟨f, n, true, true⟩),
       ⟨f, n, true, true⟩) := by
  unfold createTbl
  cases hfam : lookupFam r f with
  | none => simp [hfam]
  | some inner =>
    cases hname : lookupName inner n with
    | none => simp [hfam, hname]
    | some t0 =>
      have hlk : lookupTable r f n = some t0 := by
        unfold lookupTable
        rw [hfam]
        exact hname
      have hb : (t0.chains && t0.sets) = false := by
        cases hc : t0.chains with
        | false => rfl
        | true =>
          cases hsx : t0.sets with
          | false => rfl
          | true => exact absurd ⟨t0, hlk, hc, hsx⟩ h
      simp [hfam, hname, hb]

theorem createTbl_absent {r : Registry} {n : String} {f : TableFamily}
    (h : lookupTable r f n = none) :
    createTbl r n f =
      (setFam r f
        (insertName ((lookupFam r f).getD []) n ⟨f, n, true, true⟩),
       ⟨f, n, true, true⟩) :=
  createTbl_no_hit (fun ⟨t0, hl, _, _⟩ => by rw [h] at hl; cases hl)

theorem lookupTable_inv {r : Registry} {f : TableFamily} {n : String}
    {t : NFTable} (h : lookupTable r f n = some t) :
    ∃ inner, lookupFam r f = some inner ∧ lookupName inner n = some t := by
  unfold lookupTable at h
  cases hfam : lookupFam r f with
  | none => rw [hfam] at h; cases h
  | some inner =>
    rw [hfam] at h
    exact ⟨inner, rfl, h⟩

theorem createTbl_hit {r : Registry} {f : TableFamily} {n : String}
    {t : NFTable} (h : lookupTable r f n = some t) (hc : t.chains = true)
    (hs : t.sets = true) : createTbl r n f = (r, t) := by
  obtain ⟨inner, hfam, hname⟩ := lookupTable_inv h
  unfold createTbl
  simp [hfam, hname, hc, hs]

theorem lookupName_mem {m : TableMap} {n : String} {t : NFTable}
    (h : lookupName m n = some t) : (n, t) ∈ m := by
  induction m with
  | nil => cases h
  | cons q rest ih =>
    obtain ⟨k, v⟩ := q
    unfold lookupName at h
    by_cases hq : k = n
    · rw [if_pos hq] at h
      injection h with h
      subst hq
      subst h
      exact List.mem_cons_self _ _
    · rw [if_neg hq] at h
      exact List.mem_cons_of_mem _ (ih h)

theorem lookupFam_mem {r : Registry} {f : TableFamily} {m : TableMap}
    (h : lookupFam r f = some m) : (f, m) ∈ r := by
  induction r with
  | nil => cases h
  | cons q rest ih =>
    obtain ⟨k, v⟩ := q
    unfold lookupFam at h
    by_cases hq : k = f
    · rw [if_pos hq] at h
      injection h with h
      subst hq
      subst h
      exact List.mem_cons_self _ _
    · rw [if_neg hq] at h
      exact List.mem_cons_of_mem _ (ih h)

theorem filter_ne_then_eq {α β : Type} [DecidableEq α] (l : List (α × β))
    (k : α) :
    ((l.filter fun p => p.1 ≠ k).filter fun p => p.1 = k) = [] := by
  apply List.filter_eq_nil_iff.mpr
  intro a ha
  have := List.of_mem_filter ha
  simp at this ⊢
  exact this

theorem filter_eq_nil_of_not_mem {α β : Type} [DecidableEq α]
    {l : List (α × β)} {k : α} (h : k ∉ l.map Prod.fst) :
    (l.filter fun p => p.1 = k) = [] := by
  apply List.filter_eq_nil_iff.mpr
  intro a ha
  simp only [decide_eq_true_eq]
  intro hcon
  exact h (List.mem_map.mpr ⟨a, ha, hcon⟩)

theorem filter_eq_of_nodup {α β : Type} [DecidableEq α]
    {l : List (α × β)} {k : α} {v : β}
    (hnd : (l.map Prod.fst).Nodup) (hmem : (k, v) ∈ l) :
    (l.filter fun p => p.1 = k) = [(k, v)] := by
  induction l with
  | nil => cases hmem
  | cons p rest ih =>
    obtain ⟨k0, v0⟩ := p
    simp only [List.map_cons, List.nodup_cons] at hnd
    obtain ⟨hk0, hnd'⟩ := hnd
    rcases List.mem_cons.mp hmem with heq | hmem'
    · injection heq with he1 he2
      subst he1
      subst he2
      have hnm : k ∉ rest.map Prod.fst := hk0
      rw [List.filter_cons, if_pos (by simp)]
      rw [filter_eq_nil_of_not_mem hnm]
    · have hne : k0 ≠ k := by
        intro hcon
        subst hcon
        exact hk0 (List.mem_map.mpr ⟨(k0, v), hmem', rfl⟩)
      rw [List.filter_cons, if_neg (by simp [hne])]
      exact ih hnd' hmem'

theorem countEntries_setFam_insert (r : Registry) (f : TableFamily)
    (inner : TableMap) (n : String) (t : NFTable) :
    countEntries (setFam r f (insertName inner n t)) f n = 1 := by
  unfold countEntries setFam insertName
  rw [List.filter_cons, if_pos (by simp)]
  rw [filter_ne_then_eq]
  simp only [List.map_cons, List.map_nil, List.sum_cons, List.sum_nil]
  rw [List.filter_cons, if_pos (by simp)]
  rw [filter_ne_then_eq]
  rfl

theorem countEntries_of_wf {r : Registry} {f : TableFamily} {n : String}
    {t : NFTable} (hwf : RegistryWF r) (h : lookupTable r f n = some t) :
    countEntries r f n = 1 := by
  obtain ⟨hout, hin⟩ := hwf
  obtain ⟨inner, hfam, hname⟩ := lookupTable_inv h
  have hmemF : (f, inner) ∈ r := lookupFam_mem hfam
  obtain ⟨hndInner, _⟩ := hin (f, inner) hmemF
  have hmemN : (n, t) ∈ inner := lookupName_mem hname
  unfold countEntries
  rw [filter_eq_of_nodup hout hmemF]
  simp only [List.map_cons, List.map_nil, List.sum_cons, List.sum_nil]
  rw [filter_eq_of_nodup hndInner hmemN]
  rfl

theorem create_once_summary (s : TablesState) (n : String) (f : TableFamily)
    (hwf : RegistryWF s.tables) :
    ∃ t1, lookupTable (Create s n f).tables f n = some t1 ∧
      t1.chains = true ∧ t1.sets = true ∧
      countEntries (Create s n f).tables f n = 1 ∧
      (Create s n f).queue = s.queue ++ [KernelOp.addTable f n] := by
  by_cases hhit : ∃ t0, lookupTable s.tables f n = some t0 ∧
      t0.chains = true ∧ t0.sets = true
  · obtain ⟨t0, hl0, hc0, hs0⟩ := hhit
    have hct := createTbl_hit hl0 hc0 hs0
    have htbl : (Create s n f).tables = s.tables := by
      simp [Create, hct]
    -- the stored record carries the family and name it is keyed under
    obtain ⟨inner, hfam, hname⟩ := lookupTable_inv hl0
    have hpair : t0.family = f ∧ t0.name = n :=
      (hwf.2 (f, inner) (lookupFam_mem hfam)).2 (n, t0)
        (lookupName_mem hname)
    refine ⟨t0, ?_, hc0, hs0, ?_, ?_⟩
    · rw [htbl]
      exact hl0
    · rw [htbl]
      exact countEntries_of_wf hwf hl0
    · simp [Create, hct, hpair.1, hpair.2]
  · have hct := createTbl_no_hit hhit
    have htbl : (Create s n f).tables =
        setFam s.tables f
          (insertName ((lookupFam s.tables f).getD []) n
            ⟨f, n, true, true⟩) := by
      simp [Create, hct]
    refine ⟨⟨f, n, true, true⟩, ?_, rfl, rfl, ?_, ?_⟩
    · rw [htbl, lookupTable_setFam_insertName, if_pos ⟨rfl, rfl⟩]
    · rw [htbl]
      exact countEntries_setFam_insert _ _ _ _ _
    · simp [Create, hct]

/-- C7: calling `Create` twice for the same name and family leaves exactly
one registry entry under (family, name); the second call keeps the registry
unchanged and returns the already-registered record, while a kernel
add-table operation is enqueued by each of the two calls. The hypothesis is
the well-formedness every Go-map-backed registry has. -/
theorem create_twice_registry (s : TablesState) (n : String)
    (f : TableFamily) (hwf : RegistryWF s.tables) :
    countEntries (Create (Create s n f) n f).tables f n = 1 ∧
    (Create (Create s n f) n f).tables = (Create s n f).tables ∧
    lookupTable (Create s n f).tables f n =
      some (createTbl (Create s n f).tables n f).2 ∧
    (Create (Create s n f) n f).queue =
      s.queue ++ [KernelOp.addTable f n, KernelOp.addTable f n] := by
  obtain ⟨t1, hl, hc, hsets, hcount, hq1⟩ := create_once_summary s n f hwf
  have hff : t1.family = f ∧ t1.name = n := by
    by_cases hhit : ∃ t0, lookupTable s.tables f n = some t0 ∧
        t0.chains = true ∧ t0.sets = true
    · obtain ⟨t0, hl0, hc0, hs0⟩ := hhit
      have hct := createTbl_hit hl0 hc0 hs0
      have htbl : (Create s n f).tables = s.tables := by simp [Create, hct]
      rw [htbl] at hl
      obtain ⟨inner, hfam, hname⟩ := lookupTable_inv hl
      have hpair : t1.family = f ∧ t1.name = n :=
        (hwf.2 (f, inner) (lookupFam_mem hfam)).2 (n, t1)
          (lookupName_mem hname)
      exact hpair
    · have hct := createTbl_no_hit hhit
      have htbl : (Create s n f).tables =
          setFam s.tables f
            (insertName ((lookupFam s.tables f).getD []) n
              ⟨f, n, true, true⟩) := by
        simp [Create, hct]
      rw [htbl, lookupTable_setFam_insertName, if_pos ⟨rfl, rfl⟩] at hl
      injection hl with hl
      rw [← hl]
      exact ⟨rfl, rfl⟩
  have hhit2 := createTbl_hit hl hc hsets
  have htbl2 : (Create (Create s n f) n f).tables = (Create s n f).tables := by
    show (createTbl (Create s n f).tables n f).1 = (Create s n f).tables
    rw [hhit2]
  refine ⟨?_, htbl2, ?_, ?_⟩
  · rw [htbl2]
    exact hcount
  · rw [hhit2]
    exact hl
  · have hq2 : (Create (Create s n f) n f).queue =
        (Create s n f).queue ++ [KernelOp.addTable t1.family t1.name] := by
      show (Create s n f).queue ++
          [KernelOp.addTable (createTbl (Create s n f).tables n f).2.family
            (createTbl (Create s n f).tables n f).2.name] = _
      rw [hhit2]
    rw [hq2, hq1, hff.1, hff.2, List.append_assoc]
    rfl

theorem create_twice_registry_witness :
    countEntries
        (Create (Create ({} : TablesState) "t1" .IPv4) "t1" .IPv4).tables
        .IPv4 "t1" = 1 :=
  (create_twice_registry {} "t1" .IPv4 (by decide)).1

theorem syncLoop_ok (subSync : TableFamily → String → Except String Unit)
    (family : TableFamily) (kts : List KTable) :
    ∀ r r' : Registry, syncLoop subSync family kts r = .ok r' →
      (∀ f n t, lookupTable r f n = some t → lookupTable r' f n = some t) ∧
      (∀ f n t, lookupTable r' f n = some t →
        lookupTable r f n = some t ∨
        (f = family ∧ lookupTable r f n = none ∧
          (⟨family, n⟩ : KTable) ∈ kts ∧ t = ⟨family, n, true, true⟩)) := by
  induction kts with
  | nil =>
    intro r r' h
    unfold syncLoop at h
    cases h
    exact ⟨fun f n t ht => ht, fun f n t ht => Or.inl ht⟩
  | cons kt rest ih =>
    intro r r' h
    unfold syncLoop at h
    by_cases hfam : kt.family = family
    · rw [if_pos hfam] at h
      cases hlk : lookupTable r family kt.name with
      | some t0 =>
        rw [hlk] at h
        obtain ⟨fwd, bwd⟩ := ih r r' h
        refine ⟨fwd, fun f n t ht => ?_⟩
        rcases bwd f n t ht with hl | ⟨h1, h2, h3, h4⟩
        · exact Or.inl hl
        · exact Or.inr ⟨h1, h2, List.mem_cons_of_mem _ h3, h4⟩
      | none =>
        rw [hlk] at h
        cases hs : subSync kt.family kt.name with
        | error e =>
          rw [hs] at h
          cases h
        | ok u =>
          rw [hs] at h
          obtain ⟨fwd, bwd⟩ := ih (createTbl r kt.name kt.family).1 r' h
          have habs : lookupTable r kt.family kt.name = none := by
            rw [hfam]
            exact hlk
          have hct := createTbl_absent habs
          have hlook : ∀ f' n', lookupTable (createTbl r kt.name kt.family).1 f' n' =
              if f' = kt.family ∧ n' = kt.name then
                some ⟨kt.family, kt.name, true, true⟩
              else lookupTable r f' n' := by
            intro f' n'
            rw [hct]
            exact lookupTable_setFam_insertName r kt.family kt.name _ f' n'
          constructor
          · intro f n t ht
            apply fwd
            rw [hlook f n]
            by_cases hc : f = kt.family ∧ n = kt.name
            · obtain ⟨hc1, hc2⟩ := hc
              rw [hc1, hc2] at ht
              rw [habs] at ht
              cases ht
            · rw [if_neg hc]
              exact ht
          · intro f n t ht
            rcases bwd f n t ht with hl | ⟨h1, h2, h3, h4⟩
            · rw [hlook f n] at hl
              by_cases hc : f = kt.family ∧ n = kt.name
              · rw [if_pos hc] at hl
                injection hl with hl
                obtain ⟨hc1, hc2⟩ := hc
                refine Or.inr ⟨by rw [hc1, hfam], ?_, ?_, ?_⟩
                · rw [hc1, hc2]
                  exact habs
                · rw [← hfam, hc2]
                  have : kt = ⟨kt.family, kt.name⟩ := rfl
                  rw [← this]
                  exact List.mem_cons_self _ _
                · rw [← hl, hfam, hc2]
              · rw [if_neg hc] at hl
                exact Or.inl hl
            · rw [hlook f n] at h2
              by_cases hc : f = kt.family ∧ n = kt.name
              · rw [if_pos hc] at h2
                cases h2
              · rw [if_neg hc] at h2
                exact Or.inr ⟨h1, h2, List.mem_cons_of_mem _ h3, h4⟩
    · rw [if_neg hfam] at h
      obtain ⟨fwd, bwd⟩ := ih r r' h
      refine ⟨fwd, fun f n t ht => ?_⟩
      rcases bwd f n t ht with hl | ⟨h1, h2, h3, h4⟩
      · exact Or.inl hl
      · exact Or.inr ⟨h1, h2, List.mem_cons_of_mem _ h3, h4⟩

/-- C8: a successful `Sync(family)` removes no local table entry — every
record present before is present, unchanged, afterwards — and the only
entries it adds are fresh records for kernel-reported tables of that family
that were absent from the local mirror; the connection queue is untouched. -/
theorem sync_additive (kts : List KTable)
    (subSync : TableFamily → String → Except String Unit)
    (s : TablesState) (family : TableFamily) (s' : TablesState)
    (h : Sync (.ok kts) subSync s family = .ok s') :
    s'.queue = s.queue ∧
    (∀ f n t, lookupTable s.tables f n = some t →
      lookupTable s'.tables f n = some t) ∧
    (∀ f n t, lookupTable s'.tables f n = some t →
      lookupTable s.tables f n = some t ∨
      (f = family ∧ lookupTable s.tables f n = none ∧
        (⟨family, n⟩ : KTable) ∈ kts ∧ t = ⟨family, n, true, true⟩)) := by
  have h' : (match syncLoop subSync family kts s.tables with
      | Except.error e => Except.error e
      | Except.ok r => Except.ok { s with tables := r }) = Except.ok s' := h
  cases hsl : syncLoop subSync family kts s.tables with
  | error e =>
    rw [hsl] at h'
    cases h'
  | ok r =>
    rw [hsl] at h'
    cases h'
    obtain ⟨fwd, bwd⟩ := syncLoop_ok subSync family kts s.tables r hsl
    exact ⟨rfl, fwd, bwd⟩

theorem sync_additive_witness :
    lookupTable
        [(TableFamily.IPv4,
          [("k1", ⟨TableFamily.IPv4, "k1", true, true⟩),
           ("local", ⟨TableFamily.IPv4, "local", true, true⟩)])]
        TableFamily.IPv4 "local"
      = some ⟨TableFamily.IPv4, "local", true, true⟩ :=
  (sync_additive [⟨TableFamily.IPv4, "k1"⟩] (fun _ _ => .ok ())
      { tables := [(TableFamily.IPv4,
          [("local", ⟨TableFamily.IPv4, "local", true, true⟩)])],
        queue := [] }
      TableFamily.IPv4
      { tables := [(TableFamily.IPv4,
          [("k1", ⟨TableFamily.IPv4, "k1", true, true⟩),
           ("local", ⟨TableFamily.IPv4, "local", true, true⟩)])],
        queue := [] }
      rfl).2.1 TableFamily.IPv4 "local" ⟨TableFamily.IPv4, "local", true, true⟩
    rfl

end Nftableslib
